import Mathlib

/-!
Verification of a small RISC-V RV32I emulator (`ver3.cpp`).

The emulator is shallowly embedded: machine words (`uint32_t`) are natural
numbers kept below `2^32` by taking results modulo `2^32` exactly where the
C++ unsigned arithmetic wraps; the register file and the instruction memory
(`std::vector<uint32_t>`) are lists of naturals; the fetch-decode-execute
cycle is explicit state passing, and the unbounded `run()` loop is given as
a fuel-indexed iteration `runFuel` whose guard `pc < memory.length` matches
the loop condition of the source.
-/

/-- Two to the thirty-second power, the modulus of all `uint32_t` arithmetic. -/
def U32 : Nat := 2 ^ 32

/-- Opcode constants from the `OPCODES` enum of the source. -/
def LUI : Nat := 0b0110111

def AUIPC : Nat := 0b0010111

def JAL : Nat := 0b1101111

def JALR : Nat := 0b1100111

def ALU_IMM : Nat := 0b0010011

def ALU_REG : Nat := 0b0110011

/-- funct3 code for add and subtract, from the `FUNT3_CODES` enum. -/
def ADD_SUB : Nat := 0b000

/-- Architectural state of the emulator: the register file
(`std::vector<uint32_t> registers`, 32 entries), the instruction memory
(`std::vector<uint32_t> memory`) and the program counter (`uint32_t pc`). -/
structure EmuState where
  registers : List Nat
  memory : List Nat
  pc : Nat
deriving DecidableEq

/-- The tuple returned by `RiscVEmu::decode`: six unsigned fields and the
immediate, stored as the natural number giving the bit pattern of the
`int32_t` value of the source. -/
structure Decoded where
  opcode : Nat
  rd : Nat
  funct3 : Nat
  rs1 : Nat
  rs2 : Nat
  funct7 : Nat
  imm : Nat
deriving DecidableEq

namespace RiscVEmu

/-- The constructor `RiscVEmu(size_t memory_size)`: 32 zeroed registers,
`pc = 0`, `memory_size` zeroed memory words. -/
def initState (memory_size : Nat) : EmuState :=
  { registers := List.replicate 32 0
    memory := List.replicate memory_size 0
    pc := 0 }

/-- `RiscVEmu::load_program`: copy the program into the front of memory,
leaving the rest of memory as it was. -/
def load_program (program : List Nat) (s : EmuState) : EmuState :=
  { s with memory := program ++ s.memory.drop program.length }

/-- `static_cast<int32_t>(w) >> k` (arithmetic shift right), returned as the
32-bit two's-complement bit pattern. -/
def sra32 (w k : Nat) : Nat :=
  if w.testBit 31 then (w >>> k) ||| (U32 - 2 ^ (32 - k)) else w >>> k

/-- `RiscVEmu::decode`: fixed-position field extraction, then the
opcode-dependent immediate.  The JAL arm mirrors the source exactly,
including the fact that the first bit group `(instruction >> 12) & 0xFF` is
not shifted left by 12.  The source's final JAL term
`(static_cast<int32_t>(instruction) >> 31) << 20` is `0xFFF00000` when
bit 31 is set and `0` otherwise. -/
def decode (instruction : Nat) : Decoded :=
  let opcode := instruction &&& 0x7F
  let rd := (instruction >>> 7) &&& 0x1F
  let funct3 := (instruction >>> 12) &&& 0x7
  let rs1 := (instruction >>> 15) &&& 0x1F
  let rs2 := (instruction >>> 20) &&& 0x1F
  let funct7 := (instruction >>> 25) &&& 0x7F
  let imm :=
    if opcode = ALU_IMM ∨ opcode = JALR then
      sra32 instruction 20
    else if opcode = AUIPC ∨ opcode = LUI then
      instruction &&& 0xFFFFF000
    else if opcode = JAL then
      ((instruction >>> 12) &&& 0xFF) |||
      (((instruction >>> 20) &&& 0x1) <<< 11) |||
      (((instruction >>> 21) &&& 0x3FF) <<< 1) |||
      (if instruction.testBit 31 then 0xFFF00000 else 0)
    else 0
  ⟨opcode, rd, funct3, rs1, rs2, funct7, imm⟩

/-- `RiscVEmu::execute`: dispatch on opcode, then funct3, then funct7.
Every `uint32_t` addition is taken modulo `2^32`; the `uint32_t`
subtraction of SUB is `(a + (2^32 - b % 2^32)) % 2^32`; JALR's `& ~1`
is a bitwise AND with `0xFFFFFFFE`, and it reads `registers[rs1]` after
the write of `registers[rd]`, as the source does. -/
def execute (d : Decoded) (s : EmuState) : EmuState :=
  if d.opcode = LUI then
    { s with registers := s.registers.set d.rd d.imm }
  else if d.opcode = AUIPC then
    { s with registers := s.registers.set d.rd ((s.pc + d.imm) % U32) }
  else if d.opcode = JAL then
    { s with registers := s.registers.set d.rd s.pc
             pc := (s.pc + d.imm) % U32 }
  else if d.opcode = JALR then
    let regs := s.registers.set d.rd s.pc
    { s with registers := regs
             pc := ((regs.getD d.rs1 0 + d.imm) % U32) &&& 0xFFFFFFFE }
  else if d.opcode = ALU_IMM then
    if d.funct3 = ADD_SUB then
      let v := (s.registers.getD d.rs1 0 + d.imm) % U32
      { s with registers := s.registers.set d.rd v }
    else s
  else if d.opcode = ALU_REG then
    if d.funct3 = ADD_SUB then
      if d.funct7 = 0b0000000 then
        let v := (s.registers.getD d.rs1 0 + s.registers.getD d.rs2 0) % U32
        { s with registers := s.registers.set d.rd v }
      else if d.funct7 = 0b0100000 then
        let v := (s.registers.getD d.rs1 0 +
                  (U32 - s.registers.getD d.rs2 0 % U32)) % U32
        { s with registers := s.registers.set d.rd v }
      else s
    else s
  else s

/-- `RiscVEmu::fetch`: return `memory[pc]` and increment the `uint32_t`
program counter. -/
def fetch (s : EmuState) : Nat × EmuState :=
  (s.memory.getD s.pc 0, { s with pc := (s.pc + 1) % U32 })

/-- One iteration of the `run()` loop body: fetch, decode, execute. -/
def step (s : EmuState) : EmuState :=
  execute (decode (fetch s).1) (fetch s).2

/-- `RiscVEmu::run` with explicit fuel: perform loop iterations while
`pc < memory.size()`, up to `fuel` of them. -/
def runFuel : Nat → EmuState → EmuState
  | 0, s => s
  | fuel + 1, s => if s.pc < s.memory.length then runFuel fuel (step s) else s

/-- `run()` terminates after exactly `k` fetch cycles from state `s`: after
`k` cycles the loop guard is false, and before that it was always true. -/
def haltsIn (s : EmuState) (k : Nat) : Prop :=
  (runFuel k s).memory.length ≤ (runFuel k s).pc ∧
  ∀ j, j < k → (runFuel j s).pc < (runFuel j s).memory.length

instance haltsInDecidable (s : EmuState) (k : Nat) : Decidable (haltsIn s k) := by
  unfold haltsIn
  infer_instance

/-- The word is not a jump: its decoded opcode is neither JAL nor JALR,
the only two opcodes whose execution modifies the program counter. -/
def nonJumpWord (w : Nat) : Prop :=
  (decode w).opcode ≠ JAL ∧ (decode w).opcode ≠ JALR

instance nonJumpWordDecidable (w : Nat) : Decidable (nonJumpWord w) := by
  unfold nonJumpWord
  infer_instance

/-- The four-word demonstration program of `main()`. -/
def referenceProgram : List Nat :=
  [0x00000013, 0x00500113, 0x00600193, 0x003101B3]

/-- A small concrete state used to instantiate general theorems. -/
def probeState : EmuState :=
  { registers := List.replicate 32 0, memory := [0], pc := 0 }

/-- A concrete state whose register 1 holds `2^32 - 1`, to exercise
wraparound. -/
def wrapProbeState : EmuState :=
  { registers := (List.replicate 32 0).set 1 (U32 - 1)
    memory := [0]
    pc := 0 }

/-- A concrete state about to run a JALR whose old `R[1]` is 100,
distinguishing link-value jump targets from old-register-value targets. -/
def jalrProbeState : EmuState :=
  { registers := (List.replicate 32 0).set 1 100, memory := [0], pc := 5 }

/-- A concrete state whose memory holds, at index 4, the word
`0x008000EF`: a JAL with `rd = 1` whose decoded immediate is 8.  The
program counter is 4, as if the run loop were about to fetch it. -/
def jalProbeState : EmuState :=
  { registers := List.replicate 32 0
    memory := (List.replicate 20 0).set 4 0x008000EF
    pc := 4 }

/-- The state `main()` builds before calling `run()`: a default-size
(1024-word) emulator with the reference program loaded. -/
def mainState : EmuState := load_program referenceProgram (initState 1024)

/-- A decoded opcode/funct3/funct7 combination that `execute` acts on;
everything else falls through every branch of the dispatch. -/
def recognizedInstr (d : Decoded) : Prop :=
  d.opcode = LUI ∨ d.opcode = AUIPC ∨ d.opcode = JAL ∨ d.opcode = JALR ∨
  (d.opcode = ALU_IMM ∧ d.funct3 = ADD_SUB) ∨
  (d.opcode = ALU_REG ∧ d.funct3 = ADD_SUB ∧
    (d.funct7 = 0b0000000 ∨ d.funct7 = 0b0100000))

instance recognizedInstrDecidable (d : Decoded) :
    Decidable (recognizedInstr d) := by
  unfold recognizedInstr
  infer_instance

/-- The three arithmetic instructions the emulator supports:
ADDI, ADD and SUB. -/
def arithInstr (d : Decoded) : Prop :=
  (d.opcode = ALU_IMM ∧ d.funct3 = ADD_SUB) ∨
  (d.opcode = ALU_REG ∧ d.funct3 = ADD_SUB ∧
    (d.funct7 = 0b0000000 ∨ d.funct7 = 0b0100000))

instance arithInstrDecidable (d : Decoded) : Decidable (arithInstr d) := by
  unfold arithInstr
  infer_instance

/-- Written from the spec's words, not from the code: the exact integer an
arithmetic instruction is meant to compute before two's-complement
wraparound — `R[rs1] + immediate` for ADDI, `R[rs1] + R[rs2]` for ADD,
`R[rs1] - R[rs2]` for SUB. -/
def specArithValue (d : Decoded) (s : EmuState) : Int :=
  if d.opcode = ALU_IMM then (s.registers.getD d.rs1 0 : Int) + d.imm
  else if d.funct7 = 0b0000000 then
    (s.registers.getD d.rs1 0 : Int) + s.registers.getD d.rs2 0
  else (s.registers.getD d.rs1 0 : Int) - s.registers.getD d.rs2 0

/-- The value `execute` stores into `registers[rd]`, read off branch by
branch from the source's dispatch; meaningful for every recognized
instruction, all of which write a destination register. -/
def writtenValue (d : Decoded) (s : EmuState) : Nat :=
  if d.opcode = LUI then d.imm
  else if d.opcode = AUIPC then (s.pc + d.imm) % U32
  else if d.opcode = JAL then s.pc
  else if d.opcode = JALR then s.pc
  else if d.opcode = ALU_IMM then (s.registers.getD d.rs1 0 + d.imm) % U32
  else if d.funct7 = 0b0000000 then
    (s.registers.getD d.rs1 0 + s.registers.getD d.rs2 0) % U32
  else
    (s.registers.getD d.rs1 0 + (U32 - s.registers.getD d.rs2 0 % U32)) % U32

/-! ### Generic list helpers -/

theorem getD_set_self :
    ∀ (l : List Nat) (i v d : Nat), i < l.length →
      (l.set i v).getD i d = v
  | [], i, _, _, h => absurd h (by simp)
  | _ :: _, 0, _, _, _ => rfl
  | _ :: l, i + 1, v, d, h =>
      getD_set_self l i v d (Nat.lt_of_succ_lt_succ (by simpa using h))

theorem getD_all_zero :
    ∀ (l : List Nat) (i : Nat), (∀ x ∈ l, x = 0) → l.getD i 0 = 0
  | [], i, _ => by cases i <;> rfl
  | a :: _, 0, h => h a (by simp)
  | _ :: l, i + 1, h => getD_all_zero l i fun x hx => h x (by simp [hx])

theorem getD_mem_of_lt (l : List Nat) (i d : Nat) (h : i < l.length) :
    l.getD i d ∈ l := by
  rw [List.getD_eq_getElem l d h]
  exact List.getElem_mem h

/-! ### Invariants of `execute`, `step` and `runFuel` -/

/-- `execute` never touches the instruction memory. -/
theorem execute_memory (d : Decoded) (s : EmuState) :
    (execute d s).memory = s.memory := by
  unfold execute
  split_ifs <;> rfl

/-- `execute` of a non-jump instruction never touches the program counter. -/
theorem execute_pc (d : Decoded) (s : EmuState)
    (h1 : d.opcode ≠ JAL) (h2 : d.opcode ≠ JALR) :
    (execute d s).pc = s.pc := by
  unfold execute
  split_ifs <;> rfl

/-- `execute` preserves the length of the register file. -/
theorem execute_registers_length (d : Decoded) (s : EmuState) :
    (execute d s).registers.length = s.registers.length := by
  unfold execute
  split_ifs <;> simp

/-- The seven recognized branches of `execute`, written out one by one as
the full resulting state. -/
theorem execute_lui (d : Decoded) (s : EmuState) (hop : d.opcode = LUI) :
    execute d s = { s with registers := s.registers.set d.rd d.imm } := by
  unfold execute
  split_ifs
  simp_all [LUI, AUIPC, JAL, JALR, ALU_IMM, ALU_REG]

theorem execute_auipc (d : Decoded) (s : EmuState) (hop : d.opcode = AUIPC) :
    execute d s =
      { s with
          registers := s.registers.set d.rd ((s.pc + d.imm) % U32) } := by
  unfold execute
  split_ifs <;> simp_all [LUI, AUIPC, JAL, JALR, ALU_IMM, ALU_REG]

theorem execute_addi (d : Decoded) (s : EmuState)
    (hop : d.opcode = ALU_IMM) (hf3 : d.funct3 = ADD_SUB) :
    execute d s =
      { s with
          registers :=
            s.registers.set d.rd
              ((s.registers.getD d.rs1 0 + d.imm) % U32) } := by
  unfold execute
  split_ifs <;> simp_all [LUI, AUIPC, JAL, JALR, ALU_IMM, ALU_REG, ADD_SUB]

theorem execute_jal (d : Decoded) (s : EmuState) (hop : d.opcode = JAL) :
    execute d s =
      { s with
          registers := s.registers.set d.rd s.pc
          pc := (s.pc + d.imm) % U32 } := by
  unfold execute
  split_ifs <;> simp_all [LUI, AUIPC, JAL, JALR, ALU_IMM, ALU_REG]

theorem execute_jalr (d : Decoded) (s : EmuState) (hop : d.opcode = JALR) :
    execute d s =
      { s with
          registers := s.registers.set d.rd s.pc
          pc :=
            (((s.registers.set d.rd s.pc).getD d.rs1 0 + d.imm) % U32) &&&
              0xFFFFFFFE } := by
  unfold execute
  split_ifs <;> simp_all [LUI, AUIPC, JAL, JALR, ALU_IMM, ALU_REG]

theorem execute_add (d : Decoded) (s : EmuState)
    (hop : d.opcode = ALU_REG) (hf3 : d.funct3 = ADD_SUB)
    (hf7 : d.funct7 = 0b0000000) :
    execute d s =
      { s with
          registers :=
            s.registers.set d.rd
              ((s.registers.getD d.rs1 0 + s.registers.getD d.rs2 0) %
                U32) } := by
  unfold execute
  split_ifs <;> simp_all [LUI, AUIPC, JAL, JALR, ALU_IMM, ALU_REG, ADD_SUB]

theorem execute_sub (d : Decoded) (s : EmuState)
    (hop : d.opcode = ALU_REG) (hf3 : d.funct3 = ADD_SUB)
    (hf7 : d.funct7 = 0b0100000) :
    execute d s =
      { s with
          registers :=
            s.registers.set d.rd
              ((s.registers.getD d.rs1 0 +
                (U32 - s.registers.getD d.rs2 0 % U32)) % U32) } := by
  unfold execute
  split_ifs <;> simp_all [LUI, AUIPC, JAL, JALR, ALU_IMM, ALU_REG, ADD_SUB]

/-- One loop iteration never touches the instruction memory. -/
theorem step_memory (s : EmuState) : (step s).memory = s.memory := by
  unfold step fetch
  rw [execute_memory]

theorem runFuel_memory (k : Nat) (s : EmuState) :
    (runFuel k s).memory = s.memory := by
  induction k generalizing s with
  | zero => rfl
  | succ k ih =>
      unfold runFuel
      split_ifs
      · rw [ih, step_memory]
      · rfl

/-- Once the loop guard is false, remaining fuel changes nothing. -/
theorem runFuel_halted (k : Nat) (s : EmuState)
    (h : ¬ s.pc < s.memory.length) : runFuel k s = s := by
  cases k with
  | zero => rfl
  | succ k => unfold runFuel; rw [if_neg h]

/-- When the loop guard holds, one unit of fuel performs one iteration. -/
theorem runFuel_succ (k : Nat) (s : EmuState) (h : s.pc < s.memory.length) :
    runFuel (k + 1) s = runFuel k (step s) := by
  show (if s.pc < s.memory.length then runFuel k (step s) else s) =
    runFuel k (step s)
  rw [if_pos h]

/-- Fuel splits: running `a + b` iterations is running `a`, then `b`. -/
theorem runFuel_add (a b : Nat) (s : EmuState) :
    runFuel (a + b) s = runFuel b (runFuel a s) := by
  induction a generalizing s with
  | zero => rw [Nat.zero_add]; rfl
  | succ a ih =>
      by_cases h : s.pc < s.memory.length
      · have h1 : a + 1 + b = (a + b) + 1 := by omega
        rw [h1, runFuel_succ (a + b) s h, runFuel_succ a s h, ih]
      · rw [runFuel_halted (a + 1 + b) s h, runFuel_halted (a + 1) s h,
          runFuel_halted b s h]

/-- A loop iteration on a non-jump word advances the program counter by one
(modulo `2^32`) and leaves memory alone. -/
theorem step_nonJump (s : EmuState)
    (h : nonJumpWord (s.memory.getD s.pc 0)) :
    (step s).pc = (s.pc + 1) % U32 ∧ (step s).memory = s.memory := by
  constructor
  · unfold step fetch
    exact execute_pc _ _ h.1 h.2
  · exact step_memory s

/-- If every memory word is a non-jump, running `k` iterations takes the
program counter from `pc` to `min (pc + k) memory.length`, and memory is
unchanged. -/
theorem noJumpRun (k : Nat) (s : EmuState)
    (H : ∀ i, nonJumpWord (s.memory.getD i 0))
    (Hlen : s.memory.length < U32) (Hpc : s.pc ≤ s.memory.length) :
    (runFuel k s).pc = min (s.pc + k) s.memory.length ∧
    (runFuel k s).memory = s.memory := by
  induction k generalizing s with
  | zero =>
      refine ⟨?_, rfl⟩
      have h0 : (runFuel 0 s).pc = s.pc := rfl
      rw [h0]
      omega
  | succ k ih =>
      by_cases h : s.pc < s.memory.length
      · have hs := step_nonJump s (H s.pc)
        have hmem : (step s).memory = s.memory := hs.2
        have hpc1 : (step s).pc = s.pc + 1 := by
          rw [hs.1]
          exact Nat.mod_eq_of_lt (by omega)
        have hH : ∀ i, nonJumpWord ((step s).memory.getD i 0) := by
          intro i; rw [hmem]; exact H i
        have hmain := ih (step s) hH (by rw [hmem]; exact Hlen)
          (by rw [hpc1, hmem]; omega)
        rw [runFuel_succ k s h]
        refine ⟨?_, by rw [hmain.2, hmem]⟩
        rw [hmain.1, hpc1, hmem]
        omega
      · rw [runFuel_halted (k + 1) s h]
        refine ⟨?_, rfl⟩
        omega

/-- The `uint32_t` sum `(a + b) % 2^32` is congruent to the exact integer
sum modulo `2^32`. -/
theorem add_mod_modeq (a b : Nat) :
    (((a + b) % U32 : Nat) : Int) ≡ (a : Int) + b [ZMOD (U32 : Int)] := by
  unfold Int.ModEq
  push_cast
  simp only [U32]
  norm_num

/-- The `uint32_t` difference, embedded as `(a + (2^32 - b % 2^32)) % 2^32`,
is congruent to the exact integer difference modulo `2^32`. -/
theorem sub_mod_modeq (a b : Nat) (hb : b < U32) :
    (((a + (U32 - b % U32)) % U32 : Nat) : Int) ≡ (a : Int) - b
      [ZMOD (U32 : Int)] := by
  unfold Int.ModEq
  rw [Nat.mod_eq_of_lt hb]
  push_cast
  simp only [U32] at *
  norm_num at *
  omega

/-- A loop iteration on the word `0` (which decodes to an unrecognized
opcode, hence a no-op) only advances the program counter. -/
theorem step_zeroWord (s : EmuState) (h : s.memory.getD s.pc 0 = 0) :
    step s = { s with pc := (s.pc + 1) % U32 } := by
  unfold step fetch
  simp only [h]
  rfl

/-- If every memory word at or beyond the program counter is `0`, running
any number of iterations leaves the registers and the memory unchanged and
takes the program counter to `min (pc + k) memory.length`. -/
theorem zeroTailRun (k : Nat) (s : EmuState)
    (H : ∀ i, s.pc ≤ i → s.memory.getD i 0 = 0)
    (Hlen : s.memory.length < U32) (Hpc : s.pc ≤ s.memory.length) :
    (runFuel k s).registers = s.registers ∧
    (runFuel k s).pc = min (s.pc + k) s.memory.length ∧
    (runFuel k s).memory = s.memory := by
  induction k generalizing s with
  | zero =>
      refine ⟨rfl, ?_, rfl⟩
      have h0 : (runFuel 0 s).pc = s.pc := rfl
      rw [h0]
      omega
  | succ k ih =>
      by_cases h : s.pc < s.memory.length
      · have hz := step_zeroWord s (H s.pc (Nat.le_refl _))
        have hreg : (step s).registers = s.registers := by rw [hz]
        have hmem : (step s).memory = s.memory := step_memory s
        have hpc1 : (step s).pc = s.pc + 1 := by
          rw [hz]
          exact Nat.mod_eq_of_lt (by omega)
        have hH : ∀ i, (step s).pc ≤ i → (step s).memory.getD i 0 = 0 := by
          intro i hi
          rw [hmem]
          exact H i (by omega)
        have hmain := ih (step s) hH (by rw [hmem]; exact Hlen)
          (by rw [hpc1, hmem]; omega)
        rw [runFuel_succ k s h]
        refine ⟨by rw [hmain.1, hreg], ?_, by rw [hmain.2.2, hmem]⟩
        rw [hmain.2.1, hpc1, hmem]
        omega
      · rw [runFuel_halted (k + 1) s h]
        refine ⟨rfl, ?_, rfl⟩
        omega

/-! ### Claims -/

/-- C1: the source's own comments (and the spec) promise that a JAL word's
bits[19:12] land in immediate bits[19:12] with immediate bit 0 always zero;
the code omits the `<< 12` on that bit group, so for the JAL word
`0x0000106F` (instruction bits[19:12] = 1) the decoded immediate is 1, not
`0x1000`, and its bit 0 is set. -/
theorem jal_imm_low_group_misplaced :
    (decode 0x0000106F).opcode = JAL ∧
    (decode 0x0000106F).imm = 1 ∧
    (decode 0x0000106F).imm ≠ 0x1000 ∧
    Nat.testBit (decode 0x0000106F).imm 0 = true := by
  decide

/-- C6: for every instruction word, decode produces register indices
`rd`, `rs1`, `rs2` below 32, and `execute` never changes the length of the
register file, so every register access stays inside the 32-entry array. -/
theorem decode_register_indices_in_bounds (w : Nat) :
    (decode w).rd < 32 ∧ (decode w).rs1 < 32 ∧ (decode w).rs2 < 32 ∧
    ∀ s : EmuState,
      (execute (decode w) s).registers.length = s.registers.length := by
  refine ⟨?_, ?_, ?_, fun s => execute_registers_length _ s⟩
  · exact Nat.and_lt_two_pow (w >>> 7) (show (0x1F : Nat) < 2 ^ 5 by decide)
  · exact Nat.and_lt_two_pow (w >>> 15) (show (0x1F : Nat) < 2 ^ 5 by decide)
  · exact Nat.and_lt_two_pow (w >>> 20) (show (0x1F : Nat) < 2 ^ 5 by decide)

/-- C8: the word `0x00500113` decodes to opcode ALU_IMM, rd 2, funct3 0,
rs1 0 and immediate 5. -/
theorem decode_addi_example :
    (decode 0x00500113).opcode = ALU_IMM ∧
    (decode 0x00500113).rd = 2 ∧
    (decode 0x00500113).funct3 = 0b000 ∧
    (decode 0x00500113).rs1 = 0 ∧
    (decode 0x00500113).imm = 5 := by
  decide

/-- C5: executing any decoded instruction whose opcode/funct3/funct7
combination is not recognized leaves every register and the program
counter unchanged (and signals nothing: `execute` is a total function). -/
theorem unrecognized_instruction_noop (d : Decoded) (s : EmuState)
    (h : ¬ recognizedInstr d) :
    (execute d s).registers = s.registers ∧ (execute d s).pc = s.pc := by
  have hex : execute d s = s := by
    unfold execute
    split_ifs <;> first
      | rfl
      | (exfalso; apply h; unfold recognizedInstr; tauto)
  rw [hex]
  exact ⟨rfl, rfl⟩

theorem unrecognized_instruction_noop_checked :
    ¬ recognizedInstr (decode 7) ∧
    ((execute (decode 7) probeState).registers = probeState.registers ∧
      (execute (decode 7) probeState).pc = probeState.pc) :=
  ⟨by decide, unrecognized_instruction_noop (decode 7) probeState (by decide)⟩

/-- C9: a write to register index 0 is an ordinary store for every
instruction that writes a destination register (LUI, AUIPC, JAL, JALR,
ADDI, ADD and SUB): with `rd = 0`, executing it replaces entry 0 of the
register file with the value that branch computes, and reading register 0
afterwards returns that value — the same `set`/`get` behaviour as for any
other register index. -/
theorem register_zero_writable (d : Decoded) (s : EmuState)
    (h : recognizedInstr d) (hrd : d.rd = 0) (hlen : 0 < s.registers.length) :
    (execute d s).registers = s.registers.set 0 (writtenValue d s) ∧
    (execute d s).registers.getD 0 0 = writtenValue d s := by
  rcases h with hop | hop | hop | hop | ⟨hop, hf3⟩ | ⟨hop, hf3, hf7 | hf7⟩
  · rw [execute_lui d s hop]
    have hw : writtenValue d s = d.imm := by
      unfold writtenValue
      rw [if_pos hop]
    show s.registers.set d.rd d.imm = s.registers.set 0 (writtenValue d s) ∧
      (s.registers.set d.rd d.imm).getD 0 0 = writtenValue d s
    rw [hw, hrd]
    exact ⟨rfl, getD_set_self _ _ _ _ hlen⟩
  · rw [execute_auipc d s hop]
    have hw : writtenValue d s = (s.pc + d.imm) % U32 := by
      unfold writtenValue
      rw [if_neg (by rw [hop]; decide), if_pos hop]
    show s.registers.set d.rd ((s.pc + d.imm) % U32) =
        s.registers.set 0 (writtenValue d s) ∧
      (s.registers.set d.rd ((s.pc + d.imm) % U32)).getD 0 0 =
        writtenValue d s
    rw [hw, hrd]
    exact ⟨rfl, getD_set_self _ _ _ _ hlen⟩
  · rw [execute_jal d s hop]
    have hw : writtenValue d s = s.pc := by
      unfold writtenValue
      rw [if_neg (by rw [hop]; decide), if_neg (by rw [hop]; decide),
        if_pos hop]
    show s.registers.set d.rd s.pc = s.registers.set 0 (writtenValue d s) ∧
      (s.registers.set d.rd s.pc).getD 0 0 = writtenValue d s
    rw [hw, hrd]
    exact ⟨rfl, getD_set_self _ _ _ _ hlen⟩
  · rw [execute_jalr d s hop]
    have hw : writtenValue d s = s.pc := by
      unfold writtenValue
      rw [if_neg (by rw [hop]; decide), if_neg (by rw [hop]; decide),
        if_neg (by rw [hop]; decide), if_pos hop]
    show s.registers.set d.rd s.pc = s.registers.set 0 (writtenValue d s) ∧
      (s.registers.set d.rd s.pc).getD 0 0 = writtenValue d s
    rw [hw, hrd]
    exact ⟨rfl, getD_set_self _ _ _ _ hlen⟩
  · rw [execute_addi d s hop hf3]
    have hw : writtenValue d s =
        (s.registers.getD d.rs1 0 + d.imm) % U32 := by
      unfold writtenValue
      rw [if_neg (by rw [hop]; decide), if_neg (by rw [hop]; decide),
        if_neg (by rw [hop]; decide), if_neg (by rw [hop]; decide),
        if_pos hop]
    show s.registers.set d.rd ((s.registers.getD d.rs1 0 + d.imm) % U32) =
        s.registers.set 0 (writtenValue d s) ∧
      (s.registers.set d.rd
        ((s.registers.getD d.rs1 0 + d.imm) % U32)).getD 0 0 =
        writtenValue d s
    rw [hw, hrd]
    exact ⟨rfl, getD_set_self _ _ _ _ hlen⟩
  · rw [execute_add d s hop hf3 hf7]
    have hw : writtenValue d s =
        (s.registers.getD d.rs1 0 + s.registers.getD d.rs2 0) % U32 := by
      unfold writtenValue
      rw [if_neg (by rw [hop]; decide), if_neg (by rw [hop]; decide),
        if_neg (by rw [hop]; decide), if_neg (by rw [hop]; decide),
        if_neg (by rw [hop]; decide), if_pos hf7]
    show s.registers.set d.rd
        ((s.registers.getD d.rs1 0 + s.registers.getD d.rs2 0) % U32) =
        s.registers.set 0 (writtenValue d s) ∧
      (s.registers.set d.rd
        ((s.registers.getD d.rs1 0 + s.registers.getD d.rs2 0) %
          U32)).getD 0 0 = writtenValue d s
    rw [hw, hrd]
    exact ⟨rfl, getD_set_self _ _ _ _ hlen⟩
  · rw [execute_sub d s hop hf3 hf7]
    have hw : writtenValue d s =
        (s.registers.getD d.rs1 0 +
          (U32 - s.registers.getD d.rs2 0 % U32)) % U32 := by
      unfold writtenValue
      rw [if_neg (by rw [hop]; decide), if_neg (by rw [hop]; decide),
        if_neg (by rw [hop]; decide), if_neg (by rw [hop]; decide),
        if_neg (by rw [hop]; decide), if_neg (by rw [hf7]; decide)]
    show s.registers.set d.rd
        ((s.registers.getD d.rs1 0 +
          (U32 - s.registers.getD d.rs2 0 % U32)) % U32) =
        s.registers.set 0 (writtenValue d s) ∧
      (s.registers.set d.rd
        ((s.registers.getD d.rs1 0 +
          (U32 - s.registers.getD d.rs2 0 % U32)) % U32)).getD 0 0 =
        writtenValue d s
    rw [hw, hrd]
    exact ⟨rfl, getD_set_self _ _ _ _ hlen⟩

theorem register_zero_writable_checked :
    recognizedInstr (decode 0x00500013) ∧ (decode 0x00500013).rd = 0 ∧
    ((execute (decode 0x00500013) probeState).registers =
        probeState.registers.set 0
          (writtenValue (decode 0x00500013) probeState) ∧
      (execute (decode 0x00500013) probeState).registers.getD 0 0 =
        writtenValue (decode 0x00500013) probeState) :=
  ⟨by decide, by decide,
    register_zero_writable (decode 0x00500013) probeState
      (by decide) (by decide) (by decide)⟩

/-- C10: a JALR with `rd = rs1` first stores the current (post-fetch)
program counter into `R[rd]` and then jumps to
`(link + immediate) & ~1` computed from that just-written link value,
not from the value the register held before. -/
theorem jalr_target_uses_link_value (d : Decoded) (s : EmuState)
    (hop : d.opcode = JALR) (heq : d.rd = d.rs1)
    (hlen : d.rd < s.registers.length) :
    (execute d s).registers.getD d.rs1 0 = s.pc ∧
    (execute d s).pc = ((s.pc + d.imm) % U32) &&& 0xFFFFFFFE := by
  rw [execute_jalr d s hop]
  show (s.registers.set d.rd s.pc).getD d.rs1 0 = s.pc ∧
    (((s.registers.set d.rd s.pc).getD d.rs1 0 + d.imm) % U32) &&&
        0xFFFFFFFE =
      ((s.pc + d.imm) % U32) &&& 0xFFFFFFFE
  have hg : (s.registers.set d.rd s.pc).getD d.rs1 0 = s.pc := by
    rw [← heq]
    exact getD_set_self _ _ _ _ hlen
  rw [hg]
  exact ⟨rfl, rfl⟩

theorem jalr_target_uses_link_value_checked :
    (decode 0x008080E7).opcode = JALR ∧
    (decode 0x008080E7).rd = (decode 0x008080E7).rs1 ∧
    ((execute (decode 0x008080E7) jalrProbeState).registers.getD
        (decode 0x008080E7).rs1 0 = jalrProbeState.pc ∧
      (execute (decode 0x008080E7) jalrProbeState).pc =
        ((jalrProbeState.pc + (decode 0x008080E7).imm) % U32) &&&
          0xFFFFFFFE) :=
  ⟨by decide, by decide,
    jalr_target_uses_link_value (decode 0x008080E7) jalrProbeState
      (by decide) (by decide) (by decide)⟩

/-- C3 (amended): fetching a JAL at program counter 4 whose decoded
immediate is 8 writes 5 (the post-fetch program counter) to `R[rd]` and
continues at program counter 13 = 5 + 8, so the next instruction the run
loop fetches comes from memory index 13, not 12. -/
theorem jal_at_pc4_imm8_links_5_next_13 (s : EmuState)
    (hpc : s.pc = 4)
    (hop : (decode (s.memory.getD 4 0)).opcode = JAL)
    (him : (decode (s.memory.getD 4 0)).imm = 8)
    (hrd : (decode (s.memory.getD 4 0)).rd < s.registers.length) :
    (step s).registers.getD (decode (s.memory.getD 4 0)).rd 0 = 5 ∧
    (step s).pc = 13 := by
  have h1 : step s =
      execute (decode (s.memory.getD 4 0)) { s with pc := 5 } := by
    unfold step fetch
    rw [hpc]
    norm_num [U32]
  rw [h1, execute_jal _ _ hop]
  show (s.registers.set (decode (s.memory.getD 4 0)).rd 5).getD
      (decode (s.memory.getD 4 0)).rd 0 = 5 ∧
    (5 + (decode (s.memory.getD 4 0)).imm) % U32 = 13
  rw [him, getD_set_self _ _ _ _ hrd]
  exact ⟨rfl, by decide⟩

theorem jal_at_pc4_imm8_links_5_next_13_checked :
    jalProbeState.pc = 4 ∧
    ((step jalProbeState).registers.getD
        (decode (jalProbeState.memory.getD 4 0)).rd 0 = 5 ∧
      (step jalProbeState).pc = 13) :=
  ⟨rfl, jal_at_pc4_imm8_links_5_next_13 jalProbeState rfl (by decide)
    (by decide) (by decide)⟩

/-- C3 counterexample: with the JAL word `0x008000EF` (rd 1, decoded
immediate 8) at memory index 4 and the program counter at 4, one loop
iteration writes 5 to `R[1]` but leaves the program counter at 13, so the
next instruction is not fetched from index 12. -/
theorem jal_next_fetch_not_index_twelve :
    jalProbeState.pc = 4 ∧
    (decode (jalProbeState.memory.getD 4 0)).opcode = JAL ∧
    (decode (jalProbeState.memory.getD 4 0)).imm = 8 ∧
    (step jalProbeState).registers.getD 1 0 = 5 ∧
    (step jalProbeState).pc = 13 ∧ ¬ (step jalProbeState).pc = 12 := by
  decide

/-- C7: ADDI, ADD and SUB compute their result modulo `2^32`
(two's-complement wraparound): the stored register value is below `2^32`
and congruent modulo `2^32`, as an integer, to the exact sum or difference
of the operands; `execute` is total, so no overflow is detected or
signalled. -/
theorem arith_wraps_mod_two_pow_32 (d : Decoded) (s : EmuState)
    (h : arithInstr d) (hrd : d.rd < s.registers.length)
    (hr2 : s.registers.getD d.rs2 0 < U32) :
    ((execute d s).registers.getD d.rd 0 : Int) ≡ specArithValue d s
      [ZMOD (U32 : Int)] ∧
    (execute d s).registers.getD d.rd 0 < U32 := by
  have hU : 0 < U32 := by decide
  rcases h with ⟨hop, hf3⟩ | ⟨hop, hf3, hf7 | hf7⟩
  · rw [execute_addi d s hop hf3]
    show ((s.registers.set d.rd
        ((s.registers.getD d.rs1 0 + d.imm) % U32)).getD d.rd 0 : Int) ≡
        specArithValue d s [ZMOD (U32 : Int)] ∧
      (s.registers.set d.rd
        ((s.registers.getD d.rs1 0 + d.imm) % U32)).getD d.rd 0 < U32
    rw [getD_set_self _ _ _ _ hrd]
    have hspec : specArithValue d s =
        (s.registers.getD d.rs1 0 : Int) + d.imm := by
      unfold specArithValue
      rw [if_pos hop]
    rw [hspec]
    exact ⟨add_mod_modeq _ _, Nat.mod_lt _ hU⟩
  · rw [execute_add d s hop hf3 hf7]
    show ((s.registers.set d.rd
        ((s.registers.getD d.rs1 0 + s.registers.getD d.rs2 0) %
          U32)).getD d.rd 0 : Int) ≡
        specArithValue d s [ZMOD (U32 : Int)] ∧
      (s.registers.set d.rd
        ((s.registers.getD d.rs1 0 + s.registers.getD d.rs2 0) %
          U32)).getD d.rd 0 < U32
    rw [getD_set_self _ _ _ _ hrd]
    have hspec : specArithValue d s =
        (s.registers.getD d.rs1 0 : Int) + s.registers.getD d.rs2 0 := by
      unfold specArithValue
      rw [if_neg (by rw [hop]; decide), if_pos hf7]
    rw [hspec]
    exact ⟨add_mod_modeq _ _, Nat.mod_lt _ hU⟩
  · rw [execute_sub d s hop hf3 hf7]
    show ((s.registers.set d.rd
        ((s.registers.getD d.rs1 0 +
          (U32 - s.registers.getD d.rs2 0 % U32)) % U32)).getD
          d.rd 0 : Int) ≡
        specArithValue d s [ZMOD (U32 : Int)] ∧
      (s.registers.set d.rd
        ((s.registers.getD d.rs1 0 +
          (U32 - s.registers.getD d.rs2 0 % U32)) % U32)).getD d.rd 0 <
        U32
    rw [getD_set_self _ _ _ _ hrd]
    have hspec : specArithValue d s =
        (s.registers.getD d.rs1 0 : Int) - s.registers.getD d.rs2 0 := by
      unfold specArithValue
      rw [if_neg (by rw [hop]; decide), if_neg (by rw [hf7]; decide)]
    rw [hspec]
    exact ⟨sub_mod_modeq _ _ hr2, Nat.mod_lt _ hU⟩

theorem arith_wraps_mod_two_pow_32_checked :
    arithInstr (decode 0x00108093) ∧
    (decode 0x00108093).rd < wrapProbeState.registers.length ∧
    wrapProbeState.registers.getD (decode 0x00108093).rs2 0 < U32 ∧
    (((execute (decode 0x00108093) wrapProbeState).registers.getD
        (decode 0x00108093).rd 0 : Int) ≡
        specArithValue (decode 0x00108093) wrapProbeState
          [ZMOD (U32 : Int)] ∧
      (execute (decode 0x00108093) wrapProbeState).registers.getD
        (decode 0x00108093).rd 0 < U32) :=
  ⟨by decide, by decide, by decide,
    arith_wraps_mod_two_pow_32 (decode 0x00108093) wrapProbeState
      (by decide) (by decide) (by decide)⟩

/-- C2 counterexample: the one-word jump-free program `[0x13]` (a NOP) in a
two-word memory does not make `run()` terminate after 1 fetch cycle — after
one cycle the program counter is 1, still inside memory, so the loop keeps
fetching the zero padding. -/
theorem run_not_program_length_cycles :
    nonJumpWord 0x13 ∧ ([0x13] : List Nat).length ≤ 2 ∧
    ¬ haltsIn (load_program [0x13] (initState 2)) 1 := by
  decide

/-- C2 (amended): `run()` on a freshly initialized emulator with memory of
`M` words (`M < 2^32`) loaded with a jump-free program of at most `M` words
terminates after exactly `M` fetch cycles — the loop only stops when the
program counter reaches the memory size, fetching zero-padding no-ops past
the end of the program. -/
theorem run_terminates_after_memory_size_cycles (program : List Nat) (M : Nat)
    (hlen : program.length ≤ M) (hM : M < U32)
    (hnj : ∀ w ∈ program, nonJumpWord w) :
    haltsIn (load_program program (initState M)) M := by
  have hpc0 : (load_program program (initState M)).pc = 0 := rfl
  have hlen0 : (load_program program (initState M)).memory.length = M := by
    show (program ++ (List.replicate M 0).drop program.length).length = M
    rw [List.length_append, List.length_drop, List.length_replicate]
    omega
  have Hnj : ∀ i,
      nonJumpWord ((load_program program (initState M)).memory.getD i 0) := by
    intro i
    show nonJumpWord
      ((program ++ (List.replicate M 0).drop program.length).getD i 0)
    by_cases hi : i < program.length
    · rw [List.getD_append _ _ _ _ hi]
      exact hnj _ (getD_mem_of_lt _ _ _ hi)
    · rw [List.getD_append_right _ _ _ _ (by omega)]
      rw [getD_all_zero _ _
        (fun x hx => List.eq_of_mem_replicate (List.mem_of_mem_drop hx))]
      decide
  have HlenU : (load_program program (initState M)).memory.length < U32 := by
    rw [hlen0]; exact hM
  have Hpc : (load_program program (initState M)).pc ≤
      (load_program program (initState M)).memory.length := by
    rw [hpc0]; exact Nat.zero_le _
  constructor
  · have h := noJumpRun M _ Hnj HlenU Hpc
    rw [h.1, h.2, hpc0, hlen0]
    omega
  · intro j hj
    have h := noJumpRun j _ Hnj HlenU Hpc
    rw [h.1, h.2, hpc0, hlen0]
    omega

theorem run_terminates_after_memory_size_cycles_checked :
    ([0x13] : List Nat).length ≤ 2 ∧ (2 : Nat) < U32 ∧
    haltsIn (load_program [0x13] (initState 2)) 2 :=
  ⟨by decide, by decide,
    run_terminates_after_memory_size_cycles [0x13] 2 (by decide) (by decide)
      (by decide)⟩

set_option maxRecDepth 200000 in
/-- C4: loading the reference program into a fresh default-size emulator
and running to completion (the loop halts after 1024 cycles, one per memory
word) leaves `R[2] = 5`, `R[3] = 11` and `R[1] = 0` unchanged. -/
theorem reference_program_final_registers :
    haltsIn mainState 1024 ∧
    (runFuel 1024 mainState).registers.getD 2 0 = 5 ∧
    (runFuel 1024 mainState).registers.getD 3 0 = 11 ∧
    (runFuel 1024 mainState).registers.getD 1 0 = 0 := by
  have hmem4 : (runFuel 4 mainState).memory = mainState.memory :=
    runFuel_memory 4 _
  have h4regs : (runFuel 4 mainState).registers =
      [0, 0, 5, 11] ++ List.replicate 28 0 := by decide
  have h4pc : (runFuel 4 mainState).pc = 4 := by decide
  have hlen : mainState.memory.length = 1024 := by decide
  have hzero : ∀ i, 4 ≤ i → mainState.memory.getD i 0 = 0 := by
    intro i hi
    show (referenceProgram ++
      (List.replicate 1024 0).drop referenceProgram.length).getD i 0 = 0
    rw [List.getD_append_right _ _ _ _
      (le_trans (by decide : referenceProgram.length ≤ 4) hi)]
    exact getD_all_zero _ _
      (fun x hx => List.eq_of_mem_replicate (List.mem_of_mem_drop hx))
  have Hz : ∀ i, (runFuel 4 mainState).pc ≤ i →
      (runFuel 4 mainState).memory.getD i 0 = 0 := by
    intro i hi
    rw [hmem4]
    exact hzero i (h4pc ▸ hi)
  have HlenU : (runFuel 4 mainState).memory.length < U32 := by
    rw [hmem4, hlen]
    decide
  have Hpc : (runFuel 4 mainState).pc ≤
      (runFuel 4 mainState).memory.length := by
    rw [h4pc, hmem4, hlen]
    omega
  have hsplit : runFuel 1024 mainState = runFuel 1020 (runFuel 4 mainState) := by
    rw [show (1024 : Nat) = 4 + 1020 from by norm_num, runFuel_add]
  have hzt := zeroTailRun 1020 (runFuel 4 mainState) Hz HlenU Hpc
  refine ⟨⟨?_, ?_⟩, ?_, ?_, ?_⟩
  · rw [hsplit, hzt.2.1, hzt.2.2, h4pc, hmem4, hlen]
    omega
  · intro j hj
    by_cases hj4 : j < 4
    · interval_cases j <;> decide
    · have hsplitj : runFuel j mainState =
          runFuel (j - 4) (runFuel 4 mainState) := by
        conv_lhs => rw [show j = 4 + (j - 4) from by omega]
        rw [runFuel_add]
      have hz2 := zeroTailRun (j - 4) (runFuel 4 mainState) Hz HlenU Hpc
      rw [hsplitj, hz2.2.1, hz2.2.2, h4pc, hmem4, hlen]
      omega
  · rw [hsplit, hzt.1, h4regs]
    decide
  · rw [hsplit, hzt.1, h4regs]
    decide
  · rw [hsplit, hzt.1, h4regs]
    decide

end RiscVEmu
